import Mathlib

/-!
Shallow embedding of the Kalipso transpiler (src/kalipso.c).

The C program reads a small scripting language (assignment, `print`,
`input`), one statement per line, and emits C source.  We embed the
translation core: character classification (ctype.h in the "C" locale,
ASCII), the tokenizer, the symbol table (`find_or_add_var`), the identifier
predicate, the per-line classifier/code generator (`compile_line`), the
driver loop over source lines, and the program emitter.

Machine-level aspects are modelled abstractly but faithfully:
  * C strings become Lean `String`s; the fixed 64-byte token buffers show
    up as the 63-character cap in the tokenizer (`take_run 63`),
  * `MAX_TOKENS = 100` shows up as the fuel argument of `tokenizeAux`,
  * `MAX_VARS = 256` and `MAX_LINES = 10000` as explicit length checks,
  * `error(msg)`/`exit(1)` becomes the `Except String` error monad.
-/

namespace Kalipso

/-- ASCII `isspace` from ctype.h in the "C" locale: space, \t, \n, \v, \f, \r. -/
def c_isspace (c : Char) : Bool :=
  c.toNat == 32 || (9 ≤ c.toNat && c.toNat ≤ 13)

/-- ASCII `isalpha` from ctype.h in the "C" locale. -/
def c_isalpha (c : Char) : Bool :=
  (65 ≤ c.toNat && c.toNat ≤ 90) || (97 ≤ c.toNat && c.toNat ≤ 122)

/-- ASCII `isdigit` from ctype.h. -/
def c_isdigit (c : Char) : Bool :=
  48 ≤ c.toNat && c.toNat ≤ 57

/-- ASCII `isalnum` from ctype.h. -/
def c_isalnum (c : Char) : Bool :=
  c_isalpha c || c_isdigit c

/-- The tokenizer's word-character test: `isalnum(*p) || *p == '_'`. -/
def c_isalnum_u (c : Char) : Bool :=
  c_isalnum c || c == '_'

/-- The inner loop of `tokenize`: `while ((isalnum(*p) || *p == '_') && i < 63)`.
`take_run n cs` consumes up to `n` leading word characters of `cs`,
returning the consumed run and the remaining characters. -/
def take_run : Nat → List Char → List Char × List Char
  | 0, cs => ([], cs)
  | _ + 1, [] => ([], [])
  | n + 1, c :: cs =>
    if c_isalnum_u c then
      let p := take_run n cs
      (c :: p.1, p.2)
    else ([], c :: cs)

/-- The outer loop of `tokenize` (src/kalipso.c lines 60-78).  The fuel
argument is the remaining token budget: the C loop runs
`while (*p && *count < MAX_TOKENS)` with `MAX_TOKENS = 100`, so with
`count` tokens already emitted the budget is `100 - count`.  Each
iteration skips whitespace, stops at end of line, and otherwise consumes
either a word-character run of at most 63 characters (the token buffers
are `char[64]`) or a single other character. -/
def tokenizeAux : Nat → List Char → List String
  | 0, _ => []
  | rem + 1, cs =>
    match cs.dropWhile (fun c => c_isspace c) with
    | [] => []
    | c :: rest =>
      if c_isalnum_u c then
        let p := take_run 63 (c :: rest)
        String.mk p.1 :: tokenizeAux rem p.2
      else
        String.mk [c] :: tokenizeAux rem rest

/-- `tokenize` from src/kalipso.c: split one line into tokens. -/
def tokenize (line : String) : List String :=
  tokenizeAux 100 line.data

/-- The linear search of `find_or_add_var` (`for i < var_count: strcmp`):
index of the first occurrence of `name` in the variable table. -/
def lookupVar (name : String) : List String → Option Nat
  | [] => none
  | v :: vs => if v = name then some 0 else (lookupVar name vs).map (· + 1)

/-- `find_or_add_var` from src/kalipso.c (lines 42-50).  The variable table
is the list of names in first-registration order; a variable's slot is its
index.  A known name returns its existing slot; a new name is rejected when
`var_count >= MAX_VARS` (256) and otherwise appended with slot equal to the
old table size. -/
def find_or_add_var (name : String) (vars : List String) :
    Except String (Nat × List String) :=
  match lookupVar name vars with
  | some i => .ok (i, vars)
  | none =>
    if 256 ≤ vars.length then .error "Too many variables"
    else .ok (vars.length, vars ++ [name])

/-- `is_identifier` from src/kalipso.c (lines 52-58): first character is a
letter or underscore, the rest are alphanumeric or underscore.  On the
empty string `s[0]` is the NUL terminator, which fails the first test. -/
def is_identifier (s : String) : Bool :=
  match s.data with
  | [] => false
  | c :: cs => (c_isalpha c || c == '_') && cs.all (fun d => c_isalnum d || d == '_')

/-- `add_output_line` from src/kalipso.c (lines 80-84): append one
generated line, rejecting the 10001st (`MAX_LINES = 10000`). -/
def add_output_line (l : String) (outs : List String) : Except String (List String) :=
  if 10000 ≤ outs.length then .error "Too many lines"
  else .ok (outs ++ [l])

/-- One step of the argument-emission loops in `compile_line`: an
identifier is resolved through the symbol table and rendered `v<slot>`,
any other token is passed through verbatim. -/
def subst_token (t : String) (vars : List String) :
    Except String (String × List String) :=
  if is_identifier t then
    match find_or_add_var t vars with
    | .error e => .error e
    | .ok (i, vars') => .ok ("v" ++ toString i, vars')
  else .ok (t, vars)

/-- The argument-emission loop of `compile_line` (print arguments, lines
103-112; assignment right-hand side, lines 134-143): substitute each token
and `strcat` them with a single space between consecutive tokens
(`if (i < token_count - 1) strcat(output, " ")`). -/
def emit_expr : List String → List String → Except String (String × List String)
  | [], vars => .ok ("", vars)
  | t :: ts, vars =>
    match subst_token t vars with
    | .error e => .error e
    | .ok (s, vars') =>
      match ts with
      | [] => .ok (s, vars')
      | _ :: _ =>
        match emit_expr ts vars' with
        | .error e => .error e
        | .ok (r, vars'') => .ok (s ++ " " ++ r, vars'')

/-- Specification-level view of the emission loop: the list of substituted
tokens, before joining.  `emit_expr` is proved equal to `substTokens`
followed by space-joining. -/
def substTokens : List String → List String → Except String (List String × List String)
  | [], vars => .ok ([], vars)
  | t :: ts, vars =>
    match subst_token t vars with
    | .error e => .error e
    | .ok (s, vars') =>
      match substTokens ts vars' with
      | .error e => .error e
      | .ok (ps, vars'') => .ok (s :: ps, vars'')

/-- Join a list of strings with a separator between consecutive elements. -/
def str_join (sep : String) : List String → String
  | [] => ""
  | [s] => s
  | s :: t :: ts => s ++ sep ++ str_join sep (t :: ts)

/-- The statement classifier and code generator of `compile_line`
(src/kalipso.c lines 86-150), applied to the token list.  State is the
pair (variable table, generated output lines).  In source order: an empty
token list is a no-op (`if (token_count == 0) return`), then the `print`
branch (line 98), the `input` branch (line 119), the assignment shape
(`token_count >= 3 && strcmp(tokens[1], "=") == 0`, line 129), and finally
`error("Invalid statement")`. -/
def compile_tokens (toks : List String) (st : List String × List String) :
    Except String (List String × List String) :=
  match toks with
  | [] => .ok st
  | t0 :: rest =>
    if t0 = "print" then
      match rest with
      | [] => .error "print needs an argument"
      | _ :: _ =>
        match emit_expr rest st.1 with
        | .error e => .error e
        | .ok (body, vars') =>
          match add_output_line ("    printf(\"%lld\\n\", " ++ body ++ ");") st.2 with
          | .error e => .error e
          | .ok outs' => .ok (vars', outs')
    else if t0 = "input" then
      match rest with
      | [arg] =>
        if is_identifier arg then
          match find_or_add_var arg st.1 with
          | .error e => .error e
          | .ok (idx, vars') =>
            match add_output_line ("    scanf(\"%lld\", &v" ++ toString idx ++ ");") st.2 with
            | .error e => .error e
            | .ok outs' => .ok (vars', outs')
        else .error "input needs a variable name"
      | _ => .error "input needs one variable"
    else
      match rest with
      | t1 :: r2 :: rs =>
        if t1 = "=" then
          if is_identifier t0 then
            match find_or_add_var t0 st.1 with
            | .error e => .error e
            | .ok (idx, vars1) =>
              match emit_expr (r2 :: rs) vars1 with
              | .error e => .error e
              | .ok (body, vars') =>
                match add_output_line ("    v" ++ toString idx ++ " = " ++ body ++ ";") st.2 with
                | .error e => .error e
                | .ok outs' => .ok (vars', outs')
          else .error "Left side must be a variable"
        else .error "Invalid statement"
      | _ => .error "Invalid statement"

/-- `compile_line` from src/kalipso.c: the `strlen(line) == 0` early
return, then tokenize and classify. -/
def compile_line (line : String) (st : List String × List String) :
    Except String (List String × List String) :=
  if line.length = 0 then .ok st
  else compile_tokens (tokenize line) st

/-- One iteration of `main`'s read loop (src/kalipso.c lines 174-184):
skip leading whitespace, skip the line if it is empty or starts with `#`,
otherwise compile it (the C code passes the whitespace-stripped pointer
`p` to `compile_line`). -/
def compile_src_line (line : String) (st : List String × List String) :
    Except String (List String × List String) :=
  match line.data.dropWhile (fun c => c_isspace c) with
  | [] => .ok st
  | c :: cs =>
    if c = '#' then .ok st
    else compile_line (String.mk (c :: cs)) st

/-- `main`'s compilation loop over all source lines. -/
def compile_lines : List String → (List String × List String) →
    Except String (List String × List String)
  | [], st => .ok st
  | l :: ls, st =>
    match compile_src_line l st with
    | .error e => .error e
    | .ok st' => compile_lines ls st'

/-- A whole compilation: run the driver loop from the empty state
(`var_count = 0`, no output lines). -/
def compile_program (lines : List String) :
    Except String (List String × List String) :=
  compile_lines lines ([], [])

/-- The declaration-printing loop of `main` (src/kalipso.c lines 203-206):
`for i in [0, n): print "v<i> = 0"; if (i < n-1) print ", "`.  The first
argument is the loop's remaining iteration count, the second the current
index `i`; `n` is the total variable count. -/
def decl_loop_aux (n : Nat) : Nat → Nat → String
  | 0, _ => ""
  | rem + 1, i =>
    "v" ++ toString i ++ " = 0" ++ (if i < n - 1 then ", " else "")
      ++ decl_loop_aux n rem (i + 1)

/-- The full declaration item list for `n` variables, as printed by the
loop in `main`. -/
def decl_items (n : Nat) : String :=
  decl_loop_aux n n 0

/-- The emitted C program as a list of lines, following the `fprintf`
sequence of `main` (src/kalipso.c lines 197-217): preamble, entry point,
the combined declaration line (only when `var_count > 0`), the generated
body lines in order, and the epilogue. -/
def emit_program (n : Nat) (outs : List String) : List String :=
  ["#include <stdio.h>", "", "int main() \x7b"]
    ++ (if 0 < n then ["    long long " ++ decl_items n ++ ";"] else [])
    ++ outs
    ++ ["    return 0;", "\x7d"]

/-! ## Symbol-table lemmas -/

theorem lookupVar_eq_none_iff (name : String) :
    ∀ vs : List String, lookupVar name vs = none ↔ name ∉ vs := by
  intro vs
  induction vs with
  | nil => simp [lookupVar]
  | cons v vs ih =>
    by_cases hv : v = name
    · subst hv
      simp [lookupVar]
    · simp only [lookupVar, if_neg hv, Option.map_eq_none', ih, List.mem_cons]
      constructor
      · intro h hmem
        rcases hmem with h1 | h2
        · exact hv h1.symm
        · exact h h2
      · intro h hmem
        exact h (Or.inr hmem)

theorem lookupVar_append_left {name : String} {vs : List String} {k : Nat}
    (h : lookupVar name vs = some k) (l : List String) :
    lookupVar name (vs ++ l) = some k := by
  induction vs generalizing k with
  | nil => simp [lookupVar] at h
  | cons v vs ih =>
    by_cases hv : v = name
    · simp only [lookupVar, if_pos hv] at h ⊢
      exact h
    · simp only [lookupVar, if_neg hv] at h
      rcases Option.map_eq_some'.mp h with ⟨k', hk', hkk⟩
      rw [List.cons_append, lookupVar, if_neg hv, ih hk']
      simp [hkk]

theorem lookupVar_append_self {name : String} {vs : List String}
    (h : lookupVar name vs = none) :
    lookupVar name (vs ++ [name]) = some vs.length := by
  induction vs with
  | nil => simp [lookupVar]
  | cons v vs ih =>
    by_cases hv : v = name
    · simp [lookupVar, if_pos hv] at h
    · have h' : lookupVar name vs = none := by
        have := h
        simp only [lookupVar, if_neg hv, Option.map_eq_none'] at this
        exact this
      rw [List.cons_append, lookupVar, if_neg hv, ih h']
      simp

/-- After a successful `find_or_add_var`, the table either was unchanged
(name already present at the returned slot) or grew by exactly the new
name, whose slot is the old table size. -/
theorem find_or_add_var_cases {name : String} {vars vars' : List String} {i : Nat}
    (h : find_or_add_var name vars = .ok (i, vars')) :
    (vars' = vars ∧ lookupVar name vars = some i) ∨
      (vars' = vars ++ [name] ∧ i = vars.length ∧ lookupVar name vars = none) := by
  unfold find_or_add_var at h
  cases hl : lookupVar name vars with
  | some k =>
    rw [hl] at h
    simp only [Except.ok.injEq, Prod.mk.injEq] at h
    obtain ⟨h1, h2⟩ := h
    exact Or.inl ⟨h2.symm, by rw [h1]⟩
  | none =>
    rw [hl] at h
    by_cases hlen : 256 ≤ vars.length
    · simp [if_pos hlen] at h
    · rw [if_neg hlen] at h
      simp only [Except.ok.injEq, Prod.mk.injEq] at h
      obtain ⟨h1, h2⟩ := h
      exact Or.inr ⟨h2.symm, h1.symm, rfl⟩

theorem find_or_add_var_extends {name : String} {vars vars' : List String} {i : Nat}
    (h : find_or_add_var name vars = .ok (i, vars')) :
    ∃ l, vars' = vars ++ l := by
  rcases find_or_add_var_cases h with ⟨h1, _⟩ | ⟨h1, _⟩
  · exact ⟨[], by simp [h1]⟩
  · exact ⟨[name], h1⟩

theorem find_or_add_var_lookup {name : String} {vars vars' : List String} {i : Nat}
    (h : find_or_add_var name vars = .ok (i, vars')) :
    lookupVar name vars' = some i := by
  rcases find_or_add_var_cases h with ⟨h1, h2⟩ | ⟨h1, h2, h3⟩
  · rw [h1]; exact h2
  · rw [h1, h2]; exact lookupVar_append_self h3

theorem find_or_add_var_nodup {name : String} {vars vars' : List String} {i : Nat}
    (hn : vars.Nodup) (h : find_or_add_var name vars = .ok (i, vars')) :
    vars'.Nodup := by
  rcases find_or_add_var_cases h with ⟨h1, _⟩ | ⟨h1, _, h3⟩
  · rw [h1]; exact hn
  · rw [h1]
    rw [lookupVar_eq_none_iff] at h3
    simp [List.nodup_append, hn, h3]

theorem lookupVar_getElem_of_nodup :
    ∀ (vs : List String), vs.Nodup → ∀ n (h : n < vs.length),
      lookupVar vs[n] vs = some n := by
  intro vs
  induction vs with
  | nil => intro _ n h; simp at h
  | cons v vs ih =>
    intro hn n h
    rcases n with _ | n
    · simp [lookupVar]
    · have hlt : n < vs.length := by simpa using h
      have hmem : vs[n] ∈ vs := List.getElem_mem hlt
      have hv : v ∉ vs := (List.nodup_cons.mp hn).1
      have hne : v ≠ vs[n] := fun he => hv (he ▸ hmem)
      have : (v :: vs)[n + 1] = vs[n] := by simp
      rw [this, lookupVar, if_neg hne, ih (List.nodup_cons.mp hn).2 n hlt]
      simp

/-! ## Substitution and emission lemmas -/

theorem subst_token_cases {t s : String} {vars vars' : List String}
    (h : subst_token t vars = .ok (s, vars')) :
    (is_identifier t = false ∧ s = t ∧ vars' = vars) ∨
      (is_identifier t = true ∧
        ∃ i, find_or_add_var t vars = .ok (i, vars') ∧ s = "v" ++ toString i) := by
  unfold subst_token at h
  split at h
  · rename_i hid
    split at h
    · rename_i e he
      cases h
    · rename_i i v2 he
      simp only [Except.ok.injEq, Prod.mk.injEq] at h
      obtain ⟨h1, h2⟩ := h
      exact Or.inr ⟨hid, i, h2 ▸ he, h1.symm⟩
  · rename_i hid
    simp only [Except.ok.injEq, Prod.mk.injEq] at h
    obtain ⟨h1, h2⟩ := h
    exact Or.inl ⟨Bool.not_eq_true _ ▸ (by simpa using hid), h1.symm, h2.symm⟩

theorem subst_token_extends {t s : String} {vars vars' : List String}
    (h : subst_token t vars = .ok (s, vars')) : ∃ l, vars' = vars ++ l := by
  rcases subst_token_cases h with ⟨_, _, rfl⟩ | ⟨_, i, hf, _⟩
  · exact ⟨[], by simp⟩
  · exact find_or_add_var_extends hf

theorem subst_token_nodup {t s : String} {vars vars' : List String}
    (hn : vars.Nodup) (h : subst_token t vars = .ok (s, vars')) : vars'.Nodup := by
  rcases subst_token_cases h with ⟨_, _, rfl⟩ | ⟨_, i, hf, _⟩
  · exact hn
  · exact find_or_add_var_nodup hn hf

theorem substTokens_length {ts : List String} :
    ∀ {vars parts vars'}, substTokens ts vars = .ok (parts, vars') →
      parts.length = ts.length := by
  induction ts with
  | nil =>
    intro vars parts vars' h
    simp only [substTokens, Except.ok.injEq, Prod.mk.injEq] at h
    simp [← h.1]
  | cons t ts ih =>
    intro vars parts vars' h
    unfold substTokens at h
    split at h
    · cases h
    · rename_i s v1 hs
      split at h
      · cases h
      · rename_i ps v2 hps
        simp only [Except.ok.injEq, Prod.mk.injEq] at h
        obtain ⟨h1, _⟩ := h
        simp [← h1, ih hps]

theorem substTokens_extends {ts : List String} :
    ∀ {vars parts vars'}, substTokens ts vars = .ok (parts, vars') →
      ∃ l, vars' = vars ++ l := by
  induction ts with
  | nil =>
    intro vars parts vars' h
    simp only [substTokens, Except.ok.injEq, Prod.mk.injEq] at h
    exact ⟨[], by simp [← h.2]⟩
  | cons t ts ih =>
    intro vars parts vars' h
    unfold substTokens at h
    split at h
    · cases h
    · rename_i s v1 hs
      split at h
      · cases h
      · rename_i ps v2 hps
        simp only [Except.ok.injEq, Prod.mk.injEq] at h
        obtain ⟨_, h2⟩ := h
        obtain ⟨l1, hl1⟩ := subst_token_extends hs
        obtain ⟨l2, hl2⟩ := ih hps
        exact ⟨l1 ++ l2, by rw [← h2, hl2, hl1, List.append_assoc]⟩

theorem substTokens_nodup {ts : List String} :
    ∀ {vars parts vars'}, vars.Nodup → substTokens ts vars = .ok (parts, vars') →
      vars'.Nodup := by
  induction ts with
  | nil =>
    intro vars parts vars' hn h
    simp only [substTokens, Except.ok.injEq, Prod.mk.injEq] at h
    exact h.2 ▸ hn
  | cons t ts ih =>
    intro vars parts vars' hn h
    unfold substTokens at h
    split at h
    · cases h
    · rename_i s v1 hs
      split at h
      · cases h
      · rename_i ps v2 hps
        simp only [Except.ok.injEq, Prod.mk.injEq] at h
        exact h.2 ▸ ih (subst_token_nodup hn hs) hps

/-- `emit_expr` is `substTokens` followed by single-space joining: the
imperative `strcat` loop with its trailing-separator test produces exactly
the space-join of the substituted tokens. -/
theorem emit_expr_eq (ts : List String) :
    ∀ vars, emit_expr ts vars =
      (substTokens ts vars).map (fun p => (str_join " " p.1, p.2)) := by
  induction ts with
  | nil => intro vars; simp [emit_expr, substTokens, str_join, Except.map]
  | cons t ts ih =>
    intro vars
    unfold emit_expr substTokens
    cases hs : subst_token t vars with
    | error e => simp [Except.map]
    | ok sv =>
      obtain ⟨s, v1⟩ := sv
      cases ts with
      | nil => simp [substTokens, str_join, Except.map]
      | cons t2 ts2 =>
        have ih2 := ih v1
        cases hps : substTokens (t2 :: ts2) v1 with
        | error e =>
          rw [hps] at ih2
          simp [ih2, hps, Except.map]
        | ok pv =>
          obtain ⟨ps, v2⟩ := pv
          rw [hps] at ih2
          have hlen : ps.length = (t2 :: ts2).length := substTokens_length hps
          cases ps with
          | nil => simp at hlen
          | cons p ps2 => simp [ih2, hps, Except.map, str_join]

/-- Pointwise description of the substitution loop: position by position,
a non-identifier token is passed through verbatim, and an identifier token
is rendered `v<k>` where `k` is its slot in the resulting table. -/
theorem substTokens_spec {ts : List String} :
    ∀ {vars parts vars'}, substTokens ts vars = .ok (parts, vars') →
      ∀ (i : Nat) (t : String), ts[i]? = some t →
        (is_identifier t = false → parts[i]? = some t) ∧
        (is_identifier t = true →
          ∃ k, lookupVar t vars' = some k ∧ parts[i]? = some ("v" ++ toString k)) := by
  induction ts with
  | nil =>
    intro vars parts vars' h i t hit
    simp at hit
  | cons t0 ts ih =>
    intro vars parts vars' h i t hit
    unfold substTokens at h
    split at h
    · cases h
    · rename_i s v1 hs
      split at h
      · cases h
      · rename_i ps v2 hps
        simp only [Except.ok.injEq, Prod.mk.injEq] at h
        obtain ⟨h1, h2⟩ := h
        subst h2
        cases i with
        | zero =>
          simp only [List.getElem?_cons_zero, Option.some.injEq] at hit
          subst hit
          rcases subst_token_cases hs with ⟨hid, hst, hsv⟩ | ⟨hid, k0, hf, hsk⟩
          · constructor
            · intro _
              rw [← h1, List.getElem?_cons_zero, hst]
            · intro htrue
              rw [hid] at htrue
              cases htrue
          · constructor
            · intro hfalse
              rw [hid] at hfalse
              cases hfalse
            · intro _
              obtain ⟨l2, hl2⟩ := substTokens_extends hps
              refine ⟨k0, ?_, ?_⟩
              · rw [hl2]
                exact lookupVar_append_left (find_or_add_var_lookup hf) l2
              · rw [← h1, List.getElem?_cons_zero, hsk]
        | succ i =>
          simp only [List.getElem?_cons_succ] at hit
          have := ih hps i t hit
          rw [← h1]
          simpa only [List.getElem?_cons_succ] using this

theorem emit_expr_ok {ts : List String} {vars : List String} {body : String}
    {vars' : List String} (h : emit_expr ts vars = .ok (body, vars')) :
    ∃ ps, substTokens ts vars = .ok (ps, vars') ∧ body = str_join " " ps := by
  rw [emit_expr_eq] at h
  cases hps : substTokens ts vars with
  | error e => rw [hps] at h; simp [Except.map] at h
  | ok pv =>
    obtain ⟨ps, v2⟩ := pv
    rw [hps] at h
    simp only [Except.map, Except.ok.injEq, Prod.mk.injEq] at h
    exact ⟨ps, by rw [h.2], h.1.symm⟩

theorem emit_expr_nodup {ts : List String} {vars : List String} {body : String}
    {vars' : List String} (hn : vars.Nodup) (h : emit_expr ts vars = .ok (body, vars')) :
    vars'.Nodup := by
  obtain ⟨ps, hps, _⟩ := emit_expr_ok h
  exact substTokens_nodup hn hps

theorem add_output_line_ok {l : String} {outs : List String}
    (h : outs.length < 10000) : add_output_line l outs = .ok (outs ++ [l]) := by
  unfold add_output_line
  rw [if_neg (Nat.not_le.mpr h)]

theorem add_output_line_shape {l : String} {outs outs' : List String}
    (h : add_output_line l outs = .ok outs') : outs' = outs ++ [l] := by
  unfold add_output_line at h
  split at h
  · cases h
  · cases h; rfl

/-! ## The variable table stays duplicate-free through compilation -/

theorem compile_tokens_nodup {toks : List String} {st st' : List String × List String}
    (hn : st.1.Nodup) (h : compile_tokens toks st = .ok st') : st'.1.Nodup := by
  unfold compile_tokens at h
  split at h
  · cases h; exact hn
  · rename_i t0 rest
    split at h
    · -- print branch
      split at h
      · cases h
      · split at h
        · cases h
        · rename_i body vars' hemit
          split at h
          · cases h
          · cases h
            exact emit_expr_nodup hn hemit
    · split at h
      · -- input branch
        split at h
        · rename_i arg
          split at h
          · split at h
            · cases h
            · rename_i idx vars' hfind
              split at h
              · cases h
              · cases h
                exact find_or_add_var_nodup hn hfind
          · cases h
        · cases h
      · -- assignment or invalid
        split at h
        · split at h
          · split at h
            · split at h
              · cases h
              · rename_i idx vars1 hfind
                split at h
                · cases h
                · rename_i body vars' hemit
                  split at h
                  · cases h
                  · cases h
                    exact emit_expr_nodup (find_or_add_var_nodup hn hfind) hemit
            · cases h
          · cases h
        · cases h

theorem compile_line_nodup {line : String} {st st' : List String × List String}
    (hn : st.1.Nodup) (h : compile_line line st = .ok st') : st'.1.Nodup := by
  unfold compile_line at h
  split at h
  · cases h; exact hn
  · exact compile_tokens_nodup hn h

theorem compile_src_line_nodup {line : String} {st st' : List String × List String}
    (hn : st.1.Nodup) (h : compile_src_line line st = .ok st') : st'.1.Nodup := by
  unfold compile_src_line at h
  split at h
  · cases h; exact hn
  · split at h
    · cases h; exact hn
    · exact compile_line_nodup hn h

theorem compile_lines_nodup {lines : List String} :
    ∀ {st st' : List String × List String}, st.1.Nodup →
      compile_lines lines st = .ok st' → st'.1.Nodup := by
  induction lines with
  | nil =>
    intro st st' hn h
    unfold compile_lines at h
    cases h
    exact hn
  | cons l ls ih =>
    intro st st' hn h
    unfold compile_lines at h
    split at h
    · cases h
    · rename_i st1 hst1
      exact ih (compile_src_line_nodup hn hst1) h

theorem compile_program_nodup {lines : List String} {vars outs : List String}
    (h : compile_program lines = .ok (vars, outs)) : vars.Nodup := by
  exact compile_lines_nodup (by simp) h

/-! ## Tokenizer lemmas -/

theorem c_isalnum_u_not_space {c : Char} (h : c_isalnum_u c = true) :
    c_isspace c = false := by
  unfold c_isalnum_u c_isalnum c_isalpha c_isdigit at h
  unfold c_isspace
  simp only [Bool.or_eq_true, Bool.and_eq_true, decide_eq_true_eq, beq_iff_eq] at h
  simp only [Bool.or_eq_false_iff, Bool.and_eq_false_iff, beq_eq_false_iff_ne, ne_eq,
    decide_eq_false_iff_not, not_le]
  rcases h with (h1 | h2) | h3
  · rcases h1 with ⟨ha, hb⟩ | ⟨ha, hb⟩ <;> omega
  · obtain ⟨ha, hb⟩ := h2
    omega
  · have : c.toNat = 95 := by rw [h3]; rfl
    omega

theorem take_run_append : ∀ (n : Nat) (cs : List Char),
    (take_run n cs).1 ++ (take_run n cs).2 = cs := by
  intro n
  induction n with
  | zero => intro cs; simp [take_run]
  | succ n ih =>
    intro cs
    cases cs with
    | nil => simp [take_run]
    | cons c cs =>
      unfold take_run
      cases hc : c_isalnum_u c with
      | true => simp only [if_pos rfl]; simpa using ih cs
      | false => simp

theorem take_run_mem : ∀ (n : Nat) (cs : List Char) (c : Char),
    c ∈ (take_run n cs).1 → c_isalnum_u c = true := by
  intro n
  induction n with
  | zero => intro cs c h; simp [take_run] at h
  | succ n ih =>
    intro cs c h
    cases cs with
    | nil => simp [take_run] at h
    | cons d ds =>
      unfold take_run at h
      cases hd : c_isalnum_u d with
      | true =>
        rw [hd, if_pos rfl] at h
        simp only [List.mem_cons] at h
        rcases h with rfl | h
        · exact hd
        · exact ih ds c h
      | false =>
        rw [hd] at h
        simp at h

theorem take_run_length : ∀ (n : Nat) (cs : List Char),
    (take_run n cs).1.length ≤ n := by
  intro n
  induction n with
  | zero => intro cs; simp [take_run]
  | succ n ih =>
    intro cs
    cases cs with
    | nil => simp [take_run]
    | cons c cs =>
      unfold take_run
      cases hc : c_isalnum_u c with
      | true => simpa using ih cs
      | false => simp

/-- `take_run n` takes exactly the maximal word-character run, truncated
to `n` characters, and leaves everything after it. -/
theorem take_run_eq_takeWhile : ∀ (n : Nat) (cs : List Char),
    take_run n cs =
      ((cs.takeWhile (fun c => c_isalnum_u c)).take n,
        cs.drop ((cs.takeWhile (fun c => c_isalnum_u c)).take n).length) := by
  intro n
  induction n with
  | zero => intro cs; simp [take_run]
  | succ n ih =>
    intro cs
    cases cs with
    | nil => simp [take_run]
    | cons c cs =>
      unfold take_run
      cases hc : c_isalnum_u c with
      | true =>
        rw [if_pos rfl]
        rw [List.takeWhile_cons_of_pos hc, List.take_succ_cons]
        rw [ih cs]
        simp
      | false =>
        rw [List.takeWhile_cons_of_neg (by simp [hc])]
        simp

theorem dropWhile_cons_head {p : Char → Bool} :
    ∀ {cs : List Char} {c : Char} {rest : List Char},
      cs.dropWhile p = c :: rest → p c = false := by
  intro cs
  induction cs with
  | nil => intro c rest h; simp [List.dropWhile] at h
  | cons d ds ih =>
    intro c rest h
    simp only [List.dropWhile] at h
    split at h
    · exact ih h
    · rename_i hd
      cases h
      simpa using hd

theorem filter_dropWhile_isspace : ∀ cs : List Char,
    (cs.dropWhile (fun c => c_isspace c)).filter (fun c => !c_isspace c) =
      cs.filter (fun c => !c_isspace c) := by
  intro cs
  induction cs with
  | nil => rfl
  | cons d ds ih =>
    simp only [List.dropWhile]
    cases hd : c_isspace d with
    | true => simp [List.filter_cons, hd, ih]
    | false => simp [List.filter_cons, hd]

theorem tokenizeAux_cons_eq {rem : Nat} {cs rest : List Char} {c : Char}
    (hd : cs.dropWhile (fun c => c_isspace c) = c :: rest) :
    tokenizeAux (rem + 1) cs =
      (if c_isalnum_u c = true then
        String.mk (take_run 63 (c :: rest)).1 ::
          tokenizeAux rem (take_run 63 (c :: rest)).2
      else String.mk [c] :: tokenizeAux rem rest) := by
  conv_lhs => rw [tokenizeAux, hd]

theorem tokenizeAux_nil_eq {rem : Nat} {cs : List Char}
    (hd : cs.dropWhile (fun c => c_isspace c) = []) :
    tokenizeAux (rem + 1) cs = [] := by
  unfold tokenizeAux
  rw [hd]

theorem tokenizeAux_length : ∀ (rem : Nat) (cs : List Char),
    (tokenizeAux rem cs).length ≤ rem := by
  intro rem
  induction rem with
  | zero => intro cs; simp [tokenizeAux]
  | succ rem ih =>
    intro cs
    cases hd : cs.dropWhile (fun c => c_isspace c) with
    | nil => simp [tokenizeAux_nil_eq hd]
    | cons c rest =>
      rw [tokenizeAux_cons_eq hd]
      by_cases hc : c_isalnum_u c = true
      · rw [if_pos hc]
        simpa using ih _
      · rw [if_neg hc]
        simpa using ih rest

/-- Shape of every emitted token: nonempty, at most 63 characters, free of
whitespace, and either entirely word characters (identifier/number token)
or a single non-word character (operator/punctuation token). -/
theorem tokenizeAux_shape : ∀ (rem : Nat) (cs : List Char) (t : String),
    t ∈ tokenizeAux rem cs →
      t.data ≠ [] ∧ t.data.length ≤ 63 ∧
        (∀ c ∈ t.data, c_isspace c = false) ∧
        (t.data.all (fun c => c_isalnum_u c) = true ∨
          (t.data.length = 1 ∧ t.data.all (fun c => !c_isalnum_u c) = true)) := by
  intro rem
  induction rem with
  | zero => intro cs t h; simp [tokenizeAux] at h
  | succ rem ih =>
    intro cs t h
    cases hd : cs.dropWhile (fun c => c_isspace c) with
    | nil => rw [tokenizeAux_nil_eq hd] at h; simp at h
    | cons c rest =>
      rw [tokenizeAux_cons_eq hd] at h
      by_cases hc : c_isalnum_u c = true
      · rw [if_pos hc] at h
        simp only [List.mem_cons] at h
        rcases h with rfl | h
        · refine ⟨?_, ?_, ?_, Or.inl ?_⟩
          · show (take_run 63 (c :: rest)).1 ≠ []
            unfold take_run
            rw [if_pos hc]
            simp
          · exact take_run_length 63 (c :: rest)
          · intro d hdmem
            exact c_isalnum_u_not_space (take_run_mem 63 (c :: rest) d hdmem)
          · simp only [List.all_eq_true]
            intro d hdmem
            exact take_run_mem 63 (c :: rest) d hdmem
        · exact ih _ t h
      · rw [if_neg hc] at h
        have hc' : c_isalnum_u c = false := by simpa using hc
        simp only [List.mem_cons] at h
        rcases h with rfl | h
        · refine ⟨by simp, by simp, ?_, Or.inr ⟨by simp, by simp [hc']⟩⟩
          intro d hdmem
          simp only [List.mem_singleton] at hdmem
          subst hdmem
          exact dropWhile_cons_head hd
        · exact ih rest t h

/-- When the token budget is not exhausted, the tokenizer consumes the
whole line: the concatenation of the emitted tokens is exactly the line
with its whitespace removed, in order.  (When the budget is exhausted the
remaining characters are silently dropped.) -/
theorem tokenizeAux_join : ∀ (rem : Nat) (cs : List Char),
    (tokenizeAux rem cs).length < rem →
      ((tokenizeAux rem cs).map String.data).flatten =
        cs.filter (fun c => !c_isspace c) := by
  intro rem
  induction rem with
  | zero => intro cs h; simp at h
  | succ rem ih =>
    intro cs h
    cases hd : cs.dropWhile (fun c => c_isspace c) with
    | nil =>
      rw [tokenizeAux_nil_eq hd]
      simp only [List.map_nil, List.flatten_nil]
      rw [← filter_dropWhile_isspace cs, hd]
      rfl
    | cons c rest =>
      rw [tokenizeAux_cons_eq hd] at h ⊢
      by_cases hc : c_isalnum_u c = true
      · rw [if_pos hc] at h ⊢
        simp only [List.length_cons, Nat.add_lt_add_iff_right] at h
        simp only [List.map_cons, List.flatten_cons]
        rw [ih _ h]
        have happ := take_run_append 63 (c :: rest)
        have hmem := take_run_mem 63 (c :: rest)
        have hfil : List.filter (fun c => !c_isspace c) (c :: rest) =
            (take_run 63 (c :: rest)).1 ++
              List.filter (fun c => !c_isspace c) (take_run 63 (c :: rest)).2 := by
          conv_lhs => rw [← happ]
          rw [List.filter_append]
          congr 1
          rw [List.filter_eq_self]
          intro a ha
          simp [c_isalnum_u_not_space (hmem a ha)]
        rw [← filter_dropWhile_isspace cs, hd, hfil]
      · rw [if_neg hc] at h ⊢
        simp only [List.length_cons, Nat.add_lt_add_iff_right] at h
        simp only [List.map_cons, List.flatten_cons]
        rw [ih rest h]
        rw [← filter_dropWhile_isspace cs, hd, List.filter_cons]
        have hcs : c_isspace c = false := dropWhile_cons_head hd
        simp [hcs]

/-! ## Declaration-list lemmas -/

theorem str_append_empty (s : String) : s ++ "" = s := by
  cases s with
  | mk l =>
    show String.mk (l ++ []) = String.mk l
    rw [List.append_nil]

theorem decl_loop_aux_eq : ∀ (rem i n : Nat), i + rem = n → 0 < rem →
    decl_loop_aux n rem i =
      str_join ", " ((List.range' i rem).map fun j => "v" ++ toString j ++ " = 0") := by
  intro rem
  induction rem with
  | zero => intro i n _ h0; omega
  | succ r ihr =>
    intro i n hin _
    cases r with
    | zero =>
      have hni : ¬ i < n - 1 := by omega
      unfold decl_loop_aux
      rw [if_neg hni]
      unfold decl_loop_aux
      rw [str_append_empty, str_append_empty]
      rfl
    | succ r' =>
      have hi : i < n - 1 := by omega
      unfold decl_loop_aux
      rw [if_pos hi, ihr (i + 1) n (by omega) (by omega)]
      rw [List.range'_succ, List.range'_succ]
      simp only [List.map_cons, str_join]

/-- The declaration list printed by `main` for `n > 0` variables is
`v0 = 0, v1 = 0, ..., v<n-1> = 0`. -/
theorem decl_items_eq {n : Nat} (h : 0 < n) :
    decl_items n =
      str_join ", " ((List.range n).map fun i => "v" ++ toString i ++ " = 0") := by
  unfold decl_items
  rw [decl_loop_aux_eq n 0 n (by omega) h, List.range_eq_range']

/-! ## Branch behaviour of the classifier / code generator -/

theorem compile_tokens_print_err {st : List String × List String} :
    compile_tokens ["print"] st = .error "print needs an argument" := by
  simp [compile_tokens]

theorem compile_tokens_print_ok {rest parts vars outs vars' : List String}
    (hne : rest ≠ []) (hout : outs.length < 10000)
    (hsub : substTokens rest vars = .ok (parts, vars')) :
    compile_tokens ("print" :: rest) (vars, outs) =
      .ok (vars', outs ++ ["    printf(\"%lld\\n\", " ++ str_join " " parts ++ ");"]) := by
  have hemit : emit_expr rest vars = .ok (str_join " " parts, vars') := by
    rw [emit_expr_eq, hsub]
    rfl
  cases rest with
  | nil => exact absurd rfl hne
  | cons r rs =>
    simp [compile_tokens, hemit, add_output_line_ok hout]

theorem compile_tokens_input_err_count {rest : List String}
    {st : List String × List String} (h : rest.length ≠ 1) :
    compile_tokens ("input" :: rest) st = .error "input needs one variable" := by
  cases rest with
  | nil => simp [compile_tokens]
  | cons r rs =>
    cases rs with
    | nil => simp at h
    | cons r2 rs2 => simp [compile_tokens]

theorem compile_tokens_input_err_name {arg : String}
    {st : List String × List String} (h : is_identifier arg = false) :
    compile_tokens ["input", arg] st = .error "input needs a variable name" := by
  simp [compile_tokens, h]

theorem compile_tokens_input_ok {arg : String} {vars outs vars' : List String}
    {slot : Nat} (hid : is_identifier arg = true) (hout : outs.length < 10000)
    (hf : find_or_add_var arg vars = .ok (slot, vars')) :
    compile_tokens ["input", arg] (vars, outs) =
      .ok (vars', outs ++ ["    scanf(\"%lld\", &v" ++ toString slot ++ ");"]) := by
  simp [compile_tokens, hid, hf, add_output_line_ok hout]

theorem compile_tokens_assign_err {t0 r2 : String} {rs : List String}
    {st : List String × List String} (h0 : t0 ≠ "print") (h1 : t0 ≠ "input")
    (hid : is_identifier t0 = false) :
    compile_tokens (t0 :: "=" :: r2 :: rs) st = .error "Left side must be a variable" := by
  simp [compile_tokens, h0, h1, hid]

theorem compile_tokens_assign_ok {t0 r2 : String} {rs parts : List String}
    {vars outs vars1 vars' : List String} {slot : Nat}
    (h0 : t0 ≠ "print") (h1 : t0 ≠ "input") (hid : is_identifier t0 = true)
    (hout : outs.length < 10000)
    (hf : find_or_add_var t0 vars = .ok (slot, vars1))
    (hsub : substTokens (r2 :: rs) vars1 = .ok (parts, vars')) :
    compile_tokens (t0 :: "=" :: r2 :: rs) (vars, outs) =
      .ok (vars', outs ++
        ["    v" ++ toString slot ++ " = " ++ str_join " " parts ++ ";"]) := by
  have hemit : emit_expr (r2 :: rs) vars1 = .ok (str_join " " parts, vars') := by
    rw [emit_expr_eq, hsub]
    rfl
  simp [compile_tokens, h0, h1, hid, hf, hemit, add_output_line_ok hout]

theorem compile_tokens_invalid {t0 : String} {rest : List String}
    {st : List String × List String} (h0 : t0 ≠ "print") (h1 : t0 ≠ "input")
    (h2 : ∀ r2 rs, rest ≠ "=" :: r2 :: rs) :
    compile_tokens (t0 :: rest) st = .error "Invalid statement" := by
  cases rest with
  | nil => simp [compile_tokens, h0, h1]
  | cons t1 rest2 =>
    cases rest2 with
    | nil => simp [compile_tokens, h0, h1]
    | cons r2 rs =>
      have ht1 : t1 ≠ "=" := by
        intro he
        exact h2 r2 rs (by rw [he])
      simp [compile_tokens, h0, h1, ht1]

/-! ## The claims -/

/-- C1: for every compilation, variable slots are dense, contiguous and
start at 0: the table built by a successful compilation has no duplicate
names and the variable at position `n` resolves to slot `n`; a new name is
assigned a slot equal to the count of distinct variables seen strictly
before it; and for a nonempty table the emitted declaration list is
`v0 = 0, ..., v<N-1> = 0`, one entry per distinct variable, in slot
order. -/
theorem claim1 (lines vars outs : List String)
    (h : compile_program lines = .ok (vars, outs)) :
    vars.Nodup ∧
    (∀ (n : Nat) (hn : n < vars.length), lookupVar vars[n] vars = some n) ∧
    (∀ (name : String) (vs : List String), name ∉ vs → vs.length < 256 →
      find_or_add_var name vs = .ok (vs.length, vs ++ [name])) ∧
    (0 < vars.length →
      decl_items vars.length =
        str_join ", " ((List.range vars.length).map fun i => "v" ++ toString i ++ " = 0") ∧
      ((List.range vars.length).map fun i => "v" ++ toString i ++ " = 0").length
        = vars.length) := by
  have hnd := compile_program_nodup h
  refine ⟨hnd, fun n hn => lookupVar_getElem_of_nodup vars hnd n hn, ?_, ?_⟩
  · intro name vs hmem hlen
    have hnone : lookupVar name vs = none := (lookupVar_eq_none_iff name vs).mpr hmem
    simp [find_or_add_var, hnone, Nat.not_le.mpr hlen]
  · intro hpos
    exact ⟨decl_items_eq hpos, by simp⟩

theorem claim1_witness :
    (["x", "y", "result"] : List String).Nodup ∧
    lookupVar "result" ["x", "y", "result"] = some 2 := by
  have h := claim1 ["x = 5", "y = 10", "result = x + y", "print result"]
    ["x", "y", "result"]
    ["    v0 = 5;", "    v1 = 10;", "    v2 = v0 + v1;", "    printf(\"%lld\\n\", v2);"]
    (by rfl)
  exact ⟨h.1, h.2.1 2 (by decide)⟩

/-- C2: resolving a name already in the table returns its existing slot
(and resolving twice in a row gives the same slot both times); resolving a
new name assigns the next sequential slot, the current distinct-variable
count; and resolving a new name with the table already holding the fixed
maximum of 256 variables is the fatal error "Too many variables". -/
theorem claim2 (name : String) (vars : List String) :
    (∀ (i : Nat) (vars' : List String), find_or_add_var name vars = .ok (i, vars') →
      find_or_add_var name vars' = .ok (i, vars')) ∧
    (∀ k : Nat, lookupVar name vars = some k →
      find_or_add_var name vars = .ok (k, vars)) ∧
    (lookupVar name vars = none → vars.length < 256 →
      find_or_add_var name vars = .ok (vars.length, vars ++ [name])) ∧
    (lookupVar name vars = none → 256 ≤ vars.length →
      find_or_add_var name vars = .error "Too many variables") := by
  refine ⟨?_, ?_, ?_, ?_⟩
  · intro i vars' h
    have := find_or_add_var_lookup h
    simp [find_or_add_var, this]
  · intro k hk
    simp [find_or_add_var, hk]
  · intro hnone hlen
    simp [find_or_add_var, hnone, Nat.not_le.mpr hlen]
  · intro hnone hlen
    simp [find_or_add_var, hnone, hlen]

set_option maxRecDepth 8000 in
theorem claim2_witness :
    find_or_add_var "y" ["x", "y"] = .ok (1, ["x", "y"]) ∧
    find_or_add_var "z" (List.replicate 256 "a") = .error "Too many variables" :=
  ⟨(claim2 "y" ["x", "y"]).2.1 1 (by decide),
    (claim2 "z" (List.replicate 256 "a")).2.2.2 (by decide) (by decide)⟩

/-- C3, counterexample to the claim as stated: the tokenizer does NOT
raise a fatal error when a line has more than `MAX_TOKENS = 100` tokens; a
line of 101 `+` characters tokenizes successfully to exactly 100 tokens,
silently dropping the rest. -/
theorem claim3_counterexample :
    tokenize (String.mk (List.replicate 101 '+')) = List.replicate 100 "+" ∧
    (tokenize (String.mk (List.replicate 101 '+'))).length ≠ 101 := by
  constructor
  · decide
  · decide

/-- C3, amended: the tokenizer enforces its fixed bounds silently, not
fatally — it emits at most 100 tokens per line (characters beyond the
100th token are dropped) and caps every token at 63 characters (longer
word runs are split); it never reports an error. -/
theorem claim3_amended (line : String) :
    (tokenize line).length ≤ 100 ∧ ∀ t ∈ tokenize line, t.length ≤ 63 := by
  refine ⟨tokenizeAux_length 100 line.data, ?_⟩
  intro t ht
  exact (tokenizeAux_shape 100 line.data t ht).2.1

theorem claim3_witness :
    (tokenize "x = 5").length ≤ 100 ∧ ("x" : String).length ≤ 63 :=
  ⟨(claim3_amended "x = 5").1, (claim3_amended "x = 5").2 "x" (by decide)⟩

/-- C4, counterexample to the claim as stated: a maximal word-character
run is NOT always consumed as one token; a line of 64 `a` characters (one
maximal run) tokenizes to two tokens, a 63-character token and a
1-character token. -/
theorem claim4_counterexample :
    tokenize (String.mk (List.replicate 64 'a')) =
      [String.mk (List.replicate 63 'a'), "a"] ∧
    (tokenize (String.mk (List.replicate 64 'a'))).length ≠ 1 := by
  constructor
  · decide
  · decide

/-- C4, amended: the tokenizer scans left to right, skips whitespace
runs, consumes each maximal word-character run — truncated to at most 63
characters, longer runs being split — as one token and each other
non-whitespace character as a single one-character token, emitting no
whitespace tokens and at most 100 tokens (the stated examples hold; when
under the 100-token limit the emitted tokens cover the whole line in
order, whitespace removed; and the consumed run is exactly the maximal
word-character run capped at 63). -/
theorem claim4_amended :
    tokenize "x = 5" = ["x", "=", "5"] ∧
    tokenize "result = x + y" = ["result", "=", "x", "+", "y"] ∧
    (∀ (line t : String), t ∈ tokenize line →
      t ≠ "" ∧ t.length ≤ 63 ∧ (∀ c ∈ t.data, c_isspace c = false) ∧
        (t.data.all (fun c => c_isalnum_u c) = true ∨
          (t.length = 1 ∧ t.data.all (fun c => !c_isalnum_u c) = true))) ∧
    (∀ line : String, (tokenize line).length < 100 →
      ((tokenize line).map String.data).flatten =
        line.data.filter (fun c => !c_isspace c)) ∧
    (∀ cs : List Char,
      take_run 63 cs =
        ((cs.takeWhile (fun c => c_isalnum_u c)).take 63,
          cs.drop ((cs.takeWhile (fun c => c_isalnum_u c)).take 63).length)) := by
  refine ⟨by decide, by decide, ?_, ?_, take_run_eq_takeWhile 63⟩
  · intro line t ht
    obtain ⟨h1, h2, h3, h4⟩ := tokenizeAux_shape 100 line.data t ht
    refine ⟨?_, h2, h3, ?_⟩
    · intro he
      apply h1
      rw [he]
    · rcases h4 with h4 | ⟨h4a, h4b⟩
      · exact Or.inl h4
      · exact Or.inr ⟨h4a, h4b⟩
  · intro line h
    exact tokenizeAux_join 100 line.data h

theorem claim4_witness :
    tokenize "x = 5" = ["x", "=", "5"] ∧ ("x" : String) ≠ "" :=
  ⟨claim4_amended.1, (claim4_amended.2.2.1 "x = 5" "x" (by decide)).1⟩

/-- C5: a lone `print` token is the fatal error "print needs an
argument"; otherwise every token after `print` that is a syntactically
valid identifier is replaced by `v<slot>` via symbol-table resolution and
every other token is emitted verbatim, the results joined by single
spaces and wrapped in `printf("%lld\n", ...);`, appended as one output
line. -/
theorem claim5 :
    (∀ st : List String × List String,
      compile_tokens ["print"] st = .error "print needs an argument") ∧
    (∀ (rest parts vars outs vars' : List String), rest ≠ [] →
      outs.length < 10000 → substTokens rest vars = .ok (parts, vars') →
      compile_tokens ("print" :: rest) (vars, outs) =
        .ok (vars', outs ++
          ["    printf(\"%lld\\n\", " ++ str_join " " parts ++ ");"]) ∧
      parts.length = rest.length ∧
      (∀ (i : Nat) (t : String), rest[i]? = some t →
        (is_identifier t = false → parts[i]? = some t) ∧
        (is_identifier t = true →
          ∃ k, lookupVar t vars' = some k ∧ parts[i]? = some ("v" ++ toString k)))) := by
  refine ⟨fun st => compile_tokens_print_err, ?_⟩
  intro rest parts vars outs vars' hne hout hsub
  exact ⟨compile_tokens_print_ok hne hout hsub, substTokens_length hsub,
    substTokens_spec hsub⟩

theorem claim5_witness :
    compile_tokens ["print", "x", "+", "1"] ([], []) =
      .ok (["x"], ["    printf(\"%lld\\n\", v0 + 1);"]) := by
  have h := (claim5.2 ["x", "+", "1"] ["v0", "+", "1"] [] [] ["x"]
    (by decide) (by decide) (by rfl)).1
  exact h

/-- C6: for a token sequence of at least three tokens whose second token
is `=` and whose first token is neither `print` nor `input`: a
non-identifier first token is the fatal error "Left side must be a
variable"; otherwise the first token is resolved to a slot, an assignment
to that slot is appended, and the tokens from the third onward are
emitted in original order under the same identifier-substitution-or-
verbatim rule as print, space-joined. -/
theorem claim6 :
    (∀ (t0 r2 : String) (rs : List String) (st : List String × List String),
      t0 ≠ "print" → t0 ≠ "input" → is_identifier t0 = false →
      compile_tokens (t0 :: "=" :: r2 :: rs) st = .error "Left side must be a variable") ∧
    (∀ (t0 r2 : String) (rs parts vars outs vars1 vars' : List String) (slot : Nat),
      t0 ≠ "print" → t0 ≠ "input" → is_identifier t0 = true →
      outs.length < 10000 → find_or_add_var t0 vars = .ok (slot, vars1) →
      substTokens (r2 :: rs) vars1 = .ok (parts, vars') →
      compile_tokens (t0 :: "=" :: r2 :: rs) (vars, outs) =
        .ok (vars', outs ++
          ["    v" ++ toString slot ++ " = " ++ str_join " " parts ++ ";"]) ∧
      parts.length = rs.length + 1 ∧
      (∀ (i : Nat) (t : String), (r2 :: rs)[i]? = some t →
        (is_identifier t = false → parts[i]? = some t) ∧
        (is_identifier t = true →
          ∃ k, lookupVar t vars' = some k ∧ parts[i]? = some ("v" ++ toString k)))) := by
  refine ⟨fun t0 r2 rs st h0 h1 hid => compile_tokens_assign_err h0 h1 hid, ?_⟩
  intro t0 r2 rs parts vars outs vars1 vars' slot h0 h1 hid hout hf hsub
  have hlen := substTokens_length hsub
  exact ⟨compile_tokens_assign_ok h0 h1 hid hout hf hsub, by simpa using hlen,
    substTokens_spec hsub⟩

theorem claim6_witness :
    compile_tokens ["x", "=", "y", "+", "1"] ([], []) =
      .ok (["x", "y"], ["    v0 = v1 + 1;"]) := by
  have h := (claim6.2 "x" "y" ["+", "1"] ["v1", "+", "1"] [] [] ["x"] ["x", "y"] 0
    (by decide) (by decide) (by decide) (by decide) (by rfl) (by rfl)).1
  exact h

/-- C7: an `input` statement whose total token count is not exactly two
is the fatal error "input needs one variable"; a second token that is not
a syntactically valid identifier is the fatal error "input needs a
variable name"; otherwise the identifier is resolved to a slot and a
single `scanf` read into that slot is appended. -/
theorem claim7 :
    (∀ (rest : List String) (st : List String × List String), rest.length ≠ 1 →
      compile_tokens ("input" :: rest) st = .error "input needs one variable") ∧
    (∀ (arg : String) (st : List String × List String), is_identifier arg = false →
      compile_tokens ["input", arg] st = .error "input needs a variable name") ∧
    (∀ (arg : String) (vars outs vars' : List String) (slot : Nat),
      is_identifier arg = true → outs.length < 10000 →
      find_or_add_var arg vars = .ok (slot, vars') →
      compile_tokens ["input", arg] (vars, outs) =
        .ok (vars', outs ++ ["    scanf(\"%lld\", &v" ++ toString slot ++ ");"])) :=
  ⟨fun rest st h => compile_tokens_input_err_count h,
    fun arg st h => compile_tokens_input_err_name h,
    fun arg vars outs vars' slot hid hout hf =>
      compile_tokens_input_ok hid hout hf⟩

theorem claim7_witness :
    compile_tokens ["input", "x"] ([], []) =
      .ok (["x"], ["    scanf(\"%lld\", &v0);"]) := by
  have h := claim7.2.2 "x" [] [] ["x"] 0 (by decide) (by decide) (by rfl)
  exact h

/-- C8: classification checks `print` and `input` by exact first-token
match before the assignment shape: `print = ...` is compiled as a print
statement (never as assignment), `input = ...` is an input-arity error
(never an assignment), and any token sequence matching none of the three
statement forms — such as `foo bar` — is the fatal error "Invalid
statement". -/
theorem claim8 :
    (∀ (rest vars outs : List String) (body : String) (vars' : List String),
      outs.length < 10000 → emit_expr ("=" :: rest) vars = .ok (body, vars') →
      compile_tokens ("print" :: "=" :: rest) (vars, outs) =
        .ok (vars', outs ++ ["    printf(\"%lld\\n\", " ++ body ++ ");"])) ∧
    (∀ (rest : List String) (st : List String × List String), rest ≠ [] →
      compile_tokens ("input" :: "=" :: rest) st = .error "input needs one variable") ∧
    (∀ st : List String × List String,
      compile_tokens ["input", "="] st = .error "input needs a variable name") ∧
    (∀ (t0 : String) (rest : List String) (st : List String × List String),
      t0 ≠ "print" → t0 ≠ "input" →
      (∀ (r2 : String) (rs : List String), rest ≠ "=" :: r2 :: rs) →
      compile_tokens (t0 :: rest) st = .error "Invalid statement") ∧
    (∀ st : List String × List String,
      compile_tokens ["foo", "bar"] st = .error "Invalid statement") := by
  refine ⟨?_, ?_, ?_, ?_, ?_⟩
  · intro rest vars outs body vars' hout hemit
    obtain ⟨ps, hps, hbody⟩ := emit_expr_ok hemit
    rw [hbody]
    exact compile_tokens_print_ok (by simp) hout hps
  · intro rest st hne
    apply compile_tokens_input_err_count
    simp [hne]
  · intro st
    exact compile_tokens_input_err_name (by decide)
  · intro t0 rest st h0 h1 h2
    exact compile_tokens_invalid h0 h1 h2
  · intro st
    exact compile_tokens_invalid (by decide) (by decide) (by simp)

theorem claim8_witness :
    compile_tokens ["print", "=", "5"] ([], []) =
      .ok ([], ["    printf(\"%lld\\n\", = 5);"]) := by
  have h := claim8.1 ["5"] [] [] "= 5" [] (by decide) (by rfl)
  exact h

/-- C9: the emitted program is, in order: the fixed preamble
(`#include <stdio.h>` and a blank line), the entry point, one single
combined declaration line of all resolved variables initialized to zero
in slot order 0..N-1 (omitted entirely when zero variables were
resolved), then all generated body lines in original order, then the
fixed epilogue returning success — declarations once, before any body
line, never interleaved. -/
theorem claim9 (n : Nat) (outs : List String) :
    emit_program n outs =
      ["#include <stdio.h>", "", "int main() \x7b"]
        ++ (if 0 < n then
          ["    long long " ++
            str_join ", " ((List.range n).map fun i => "v" ++ toString i ++ " = 0")
            ++ ";"]
          else [])
        ++ outs ++ ["    return 0;", "\x7d"] := by
  unfold emit_program
  by_cases h : 0 < n
  · rw [if_pos h, if_pos h, decl_items_eq h]
  · rw [if_neg h, if_neg h]

/-- C10: `print` and `input` are not reserved outside the first token
position: both pass the identifier test, so as a print argument or in an
assignment right-hand side they are resolved through the symbol table to
ordinary variable slots — `x = print` assigns variable `print`'s value to
`x`, `print print` prints variable `print`, and `input` used twice in an
expression resolves to the same slot. -/
theorem claim10 :
    is_identifier "print" = true ∧ is_identifier "input" = true ∧
    (∀ vars : List String, subst_token "print" vars =
      (match find_or_add_var "print" vars with
        | .error e => .error e
        | .ok (i, v) => .ok ("v" ++ toString i, v))) ∧
    compile_line "x = print" ([], []) = .ok (["x", "print"], ["    v0 = v1;"]) ∧
    compile_tokens ["print", "print"] ([], []) =
      .ok (["print"], ["    printf(\"%lld\\n\", v0);"]) ∧
    compile_tokens ["x", "=", "input", "+", "input"] ([], []) =
      .ok (["x", "input"], ["    v0 = v1 + v1;"]) := by
  have hp : is_identifier "print" = true := by decide
  refine ⟨hp, by decide, ?_, by rfl, by rfl, by rfl⟩
  intro vars
  unfold subst_token
  rw [if_pos hp]

end Kalipso
